import Mathlib

set_option maxRecDepth 8192

/-!
A shallow embedding of the version-normalization core of the
`github-release-packager` package (`lib/grp-plugin-default.js`):
the sanitizer `GetSectionString`, the tokenizer `ParseSection`, the parser
`ParseVersion` and the synthesizer `getSemver`, together with a model of the
`semver.valid` dependency (node-semver 7.x strict parsing) that `getSemver`
calls on its fast path.

JavaScript strings are modelled as Lean `String` (a list of characters);
JavaScript numbers produced by `parseInt` are modelled as IEEE-754 doubles:
integers are kept exactly below `2^53`, rounded to the nearest representable
double (ties to even) above it, and overflow to positive infinity at `2^1024`.
-/

/-- The characters removed by JavaScript `String.prototype.trim` (and skipped by
`parseInt`): the ECMAScript WhiteSpace set (TAB, VT, FF, SP, NBSP, ZWNBSP and
the Unicode Zs category: U+1680, U+2000..U+200A, U+202F, U+205F, U+3000)
together with the LineTerminator set (LF, CR, LS, PS). -/
def jsWsChars : List Char :=
  [' ', '\t', '\n', '\r', '\u000b', '\u000c', '\u00a0', '\ufeff', '\u2028', '\u2029',
   '\u1680', '\u2000', '\u2001', '\u2002', '\u2003', '\u2004', '\u2005', '\u2006',
   '\u2007', '\u2008', '\u2009', '\u200a', '\u202f', '\u205f', '\u3000']

/-- Whether a character is JavaScript whitespace. -/
def jsWs (c : Char) : Bool := jsWsChars.elem c

/-- JavaScript `String.prototype.trim`: drop leading and trailing whitespace. -/
def jsTrim (s : String) : String :=
  String.mk (((s.data.dropWhile jsWs).reverse.dropWhile jsWs).reverse)

/-- Helper for `splitChar`: prepend a character to the first group. -/
def consHead (c : Char) : List (List Char) → List (List Char)
  | [] => [[c]]
  | g :: gs => (c :: g) :: gs

/-- JavaScript `String.prototype.split` with a one-character separator
(without limit): `splitChar sep cs` is the list of separator-free groups;
it is never empty, and `splitChar sep [] = [[]]` as in JavaScript. -/
def splitChar (sep : Char) : List Char → List (List Char)
  | [] => [[]]
  | c :: rest => if c = sep then [] :: splitChar sep rest else consHead c (splitChar sep rest)

/-- JavaScript `s.split(sep, 2)`: split on every occurrence, keep only the
first two groups (the rest of the string is discarded, not kept as a remainder). -/
def jsSplit2 (sep : Char) (s : String) : List String :=
  ((splitChar sep s.data).map String.mk).take 2

def isDigitB (c : Char) : Bool := '0' ≤ c && c ≤ '9'

def isHexDigitB (c : Char) : Bool :=
  isDigitB c || ('a' ≤ c && c ≤ 'f') || ('A' ≤ c && c ≤ 'F')

def isLetterB (c : Char) : Bool := ('a' ≤ c && c ≤ 'z') || ('A' ≤ c && c ≤ 'Z')

/-- Characters the sanitizer keeps unchanged: the class `[0-9a-zA-Z-.]` of
the regex in `GetSectionString`. -/
def isSectionChar (c : Char) : Bool :=
  isDigitB c || isLetterB c || c == '-' || c == '.'

/-- `GetSectionString` (grp-plugin-default.js:167-173):
`section.replace(/[^0-9a-zA-Z-\.]/g, '.')`. -/
def GetSectionString (sect : String) : String :=
  String.mk (sect.data.map (fun c => if isSectionChar c then c else '.'))

/-- Numeric value of a list of decimal digits. -/
def decValueL (cs : List Char) : Nat :=
  cs.foldl (fun a c => 10 * a + (c.toNat - '0'.toNat)) 0

def hexDigitVal (c : Char) : Nat :=
  if isDigitB c then c.toNat - '0'.toNat
  else if 'a' ≤ c && c ≤ 'f' then c.toNat - 'a'.toNat + 10
  else c.toNat - 'A'.toNat + 10

/-- Numeric value of a list of hexadecimal digits. -/
def hexValueL (cs : List Char) : Nat :=
  cs.foldl (fun a c => 16 * a + hexDigitVal c) 0

/-- A JavaScript number as produced by `parseInt`: a finite (integer-valued)
double, or one of the infinities. -/
inductive JSNum where
  | fin (n : Int)
  | posInf
  | negInf
deriving DecidableEq, Repr

/-- The number of low-order bits an IEEE-754 double rounds away from a
non-negative integer: how many halvings it takes to fit in 53 bits. The fuel
argument only bounds the recursion; any fuel of at least `log2 n` computes
the exact shift. -/
def mantissaShift : Nat → Nat → Nat
  | 0, _ => 0
  | fuel + 1, n => if n < 2 ^ 53 then 0 else mantissaShift fuel (n / 2) + 1

/-- Round a non-negative integer to the nearest integer with at most 53
significant bits (round to nearest, ties to even) — the value an IEEE-754
double stores for it. Integers below `2^53` are kept exactly; the fuel only
bounds the recursion of `mantissaShift`. -/
def roundMantissa (fuel : Nat) (n : Nat) : Nat :=
  if n < 2 ^ 53 then n
  else
    let k := mantissaShift fuel n
    let q := n / 2 ^ k
    let r := n % 2 ^ k
    let q2 := if 2 ^ k < 2 * r ∨ (2 * r = 2 ^ k ∧ q % 2 = 1) then q + 1 else q
    q2 * 2 ^ k

/-- The IEEE-754 double value of a non-negative integer: rounded to 53
significant bits, overflowing to positive infinity from `2^1024` on. -/
def doubleOfNat (fuel : Nat) (n : Nat) : JSNum :=
  let v := roundMantissa fuel n
  if 2 ^ 1024 ≤ v then JSNum.posInf else JSNum.fin (Int.ofNat v)

/-- JavaScript unary minus on a number. -/
def JSNum.neg : JSNum → JSNum
  | .fin n => .fin (-n)
  | .posInf => .negInf
  | .negInf => .posInf

/-- The unsigned part of JavaScript `parseInt` with unspecified radix:
a `0x`/`0X` prefix switches to hexadecimal, otherwise the maximal leading
run of decimal digits is parsed; no digits means `NaN` (`none`). -/
def parseUnsignedJS (cs : List Char) : Option Nat :=
  match cs with
  | c0 :: c1 :: rest =>
    if c0 = '0' ∧ (c1 = 'x' ∨ c1 = 'X') then
      let ds := rest.takeWhile isHexDigitB
      if ds = [] then none else some (hexValueL ds)
    else
      let ds := (c0 :: c1 :: rest).takeWhile isDigitB
      if ds = [] then none else some (decValueL ds)
  | _ =>
    let ds := cs.takeWhile isDigitB
    if ds = [] then none else some (decValueL ds)

/-- JavaScript `parseInt(s)` (radix argument omitted): skip leading whitespace,
read an optional sign, parse per `parseUnsignedJS`, and return the resulting
number as an IEEE-754 double; `none` models `NaN`. The rounding fuel
`4 * s.length + 64` exceeds `log2` of any digit run of `s` (whose value is
below `16 ^ s.length`), so the rounding is exact for every input. -/
def jsParseInt (s : String) : Option JSNum :=
  let fuel := 4 * s.length + 64
  match s.data.dropWhile jsWs with
  | [] => (parseUnsignedJS []).map (doubleOfNat fuel)
  | c :: rest =>
    if c = '-' then (parseUnsignedJS rest).map (fun n => (doubleOfNat fuel n).neg)
    else if c = '+' then (parseUnsignedJS rest).map (doubleOfNat fuel)
    else (parseUnsignedJS (c :: rest)).map (doubleOfNat fuel)

/-- A part of a version section: a non-negative number pushed by `parseInt`
(a finite integer-valued double, or `Infinity` for overflowing digit runs),
or the original token kept as an opaque string. -/
inductive SectionPart where
  | int (n : Int)
  | inf
  | str (s : String)
deriving DecidableEq, Repr

/-- `typeof part === 'number'` (both finite numbers and `Infinity`). -/
def SectionPart.isInt : SectionPart → Bool
  | .int _ => true
  | .inf => true
  | .str _ => false

/-- JavaScript number/string conversion used by `Array.prototype.join`:
the stored double's exact integer value in decimal (JavaScript's
shortest-round-trip printing agrees on every value below `2^53`, which covers
all values asserted concretely in this development), or `"Infinity"`. -/
def partToString : SectionPart → String
  | .int n => toString n
  | .inf => "Infinity"
  | .str s => s

/-- How `ParseSection` emits one non-empty token (grp-plugin-default.js:156-161):
`var num = parseInt(part); if (!isNaN(num) && num >= 0) push(num) else push(part)`. -/
def emitTok (part : String) : SectionPart :=
  match jsParseInt part with
  | some (JSNum.fin n) => if 0 ≤ n then SectionPart.int n else SectionPart.str part
  | some JSNum.posInf => SectionPart.inf
  | some JSNum.negInf => SectionPart.str part
  | none => SectionPart.str part

/-- `ParseSection` (grp-plugin-default.js:142-166): sanitize, split on `'.'`,
then for each token in order: an empty token is pushed as `0` unless it is the
last token (`pIdx < pArr.length - 1`), and a non-empty token is pushed via
`parseInt` as in `emitTok`. -/
def ParseSection (sect : String) : List SectionPart :=
  let parts := (splitChar '.' (GetSectionString sect).data).map String.mk
  parts.enum.filterMap (fun it =>
    if jsTrim it.2 = "" then
      if it.1 < parts.length - 1 then some (SectionPart.int 0) else none
    else
      some (emitTok it.2))

/-- The parsed `Version` record with its three sections. -/
structure Version where
  Release : List SectionPart
  Prerelease : List SectionPart
  BuildMetadata : List SectionPart
deriving DecidableEq, Repr

/-- `ParseVersion` (grp-plugin-default.js:111-136): `version.split('-', 2)`
gives the release section and (when present) a remainder, which is in turn
`split('+', 2)` into prerelease and build-metadata sections; each section is
tokenized by `ParseSection`. -/
def ParseVersion (version : String) : Version :=
  let sections := jsSplit2 '-' version
  let release := ParseSection (sections.getD 0 "")
  if sections.length > 1 then
    let sections2 := jsSplit2 '+' (sections.getD 1 "")
    { Release := release
      Prerelease := ParseSection (sections2.getD 0 "")
      BuildMetadata :=
        if sections2.length > 1 then ParseSection (sections2.getD 1 "") else [] }
  else
    { Release := release, Prerelease := [], BuildMetadata := [] }

/-- node-semver strict `NUMERICIDENTIFIER`: `0|[1-9]\d*`. -/
def isNumericIdentL : List Char → Bool
  | [] => false
  | c :: rest => isDigitB c && rest.all isDigitB && (rest.isEmpty || !(c == '0'))

/-- Characters of semver identifiers: `[0-9A-Za-z-]`. -/
def isIdentCharB (c : Char) : Bool := isDigitB c || isLetterB c || c == '-'

/-- node-semver `BUILDIDENTIFIER`: `[0-9A-Za-z-]+`. -/
def isBuildIdentL (cs : List Char) : Bool := !cs.isEmpty && cs.all isIdentCharB

/-- node-semver `PRERELEASEIDENTIFIER`: a strict numeric identifier or
`\d*[a-zA-Z-][a-zA-Z0-9-]*` (an identifier with at least one non-digit). -/
def isPreIdentL (cs : List Char) : Bool :=
  isNumericIdentL cs || (!cs.isEmpty && cs.all isIdentCharB && !cs.all isDigitB)

/-- `Number.MAX_SAFE_INTEGER`; node-semver rejects larger release components. -/
def maxSafeInteger : Nat := 9007199254740991

/-- node-semver `MAINVERSION`: exactly three dot-separated strict numeric
identifiers, each within `MAX_SAFE_INTEGER`. -/
def mainVersionOK (cs : List Char) : Bool :=
  let comps := splitChar '.' cs
  comps.length == 3 && comps.all (fun a => isNumericIdentL a && decide (decValueL a ≤ maxSafeInteger))

/-- The optional leading `v` of node-semver's `FULLPLAIN` (`v?...`). -/
def stripVL (cs : List Char) : List Char :=
  match cs with
  | c :: rest => if c = 'v' then rest else cs
  | [] => []

/-- Split a character list at the first occurrence of `sep`; `none` if `sep`
does not occur. -/
def breakFirstL (sep : Char) : List Char → Option (List Char × List Char)
  | [] => none
  | c :: rest =>
    if c = sep then some ([], rest)
    else (breakFirstL sep rest).map (fun p => (c :: p.1, p.2))

/-- The part of a candidate version before its build-metadata suffix
(everything before the first `+`, after the optional leading `v` of the
**trimmed** string — node-semver matches `version.trim()`); since no semver
identifier may contain `+`, this is where node-semver's strict regular
expression must place `MAINVERSION(-PRERELEASE)?`. -/
def semverCorePre (s : String) : List Char :=
  match breakFirstL '+' (stripVL (jsTrim s).data) with
  | none => stripVL (jsTrim s).data
  | some (l, _) => l

/-- Whether the (possibly absent) build-metadata part after the first `+` is a
non-empty dot-separated sequence of `BUILDIDENTIFIER`s. -/
def semverBuildOk (s : String) : Bool :=
  match breakFirstL '+' (stripVL (jsTrim s).data) with
  | none => true
  | some (_, r) => (splitChar '.' r).all isBuildIdentL

/-- The `MAINVERSION` candidate: the part of `semverCorePre` before the first
`-` (the main version contains no `-`, so the prerelease starts at the first
`-`). -/
def semverCore (s : String) : List Char :=
  match breakFirstL '-' (semverCorePre s) with
  | none => semverCorePre s
  | some (l, _) => l

/-- Whether the (possibly absent) prerelease part after the first `-` of
`semverCorePre` is a non-empty dot-separated sequence of
`PRERELEASEIDENTIFIER`s. -/
def semverPreOk (s : String) : Bool :=
  match breakFirstL '-' (semverCorePre s) with
  | none => true
  | some (_, r) => (splitChar '.' r).all isPreIdentL

/-- Whether a string is accepted by node-semver 7.x's strict parser: the
`SemVer` constructor matches `version.trim()` against the `FULL` regular
expression `^v?MAINVERSION(-PRERELEASE)?(\+BUILD)?$`, after checking
`MAX_LENGTH = 256` on the untrimmed string; the `MAX_SAFE_INTEGER` bound on
the release components is part of acceptance. -/
def semverMatch (s : String) : Bool :=
  decide (s.length ≤ 256) && semverBuildOk s && semverPreOk s && mainVersionOK (semverCore s)

/-- Model of `semver.valid(s, { includePrerelease: true })` from node-semver 7.x:
`null` unless the strict grammar matches the trimmed input, otherwise the
cleaned `major.minor.patch[-prerelease]` form, i.e. the trimmed input without
its optional leading `v` and without its build-metadata suffix (strict
identifiers have no leading zeros, so they reprint exactly as matched). -/
def semverValid (s : String) : Option String :=
  if semverMatch s then
    some (String.mk ((stripVL (jsTrim s).data).takeWhile (fun c => c != '+')))
  else none

/-- A JavaScript argument value as far as `getSemver`'s `typeof` guard is
concerned: a string, or some non-string value. -/
inductive JSValue where
  | str (s : String)
  | num (n : Int)
  | undef
deriving DecidableEq, Repr

/-- The spec's error taxonomy (kinds, not runtime types): the single guard in
`getSemver` raises for a non-string argument (`InvalidInputError` kind) or a
blank string (`EmptyVersionError` kind). -/
inductive GrpError where
  | invalidInput
  | emptyVersion
deriving DecidableEq, Repr

/-- The slow path of `getSemver` (grp-plugin-default.js:31-67): parse, then
if the first `min(3, length)` release parts are numbers render them joined by
`'.'` with `'.0'` appended once when fewer than 3 and once more when fewer
than 2 parts exist and extra parts appended after a `'-'`; otherwise render
`0.0.0` with the whole release as a `'-'` suffix; finally append the
prerelease and build-metadata sections. -/
def synthesizeSlow (version : String) : String :=
  let sections := ParseVersion version
  let firstThreeAreDigits := (sections.Release.take 3).all SectionPart.isInt
  let result :=
    if firstThreeAreDigits then
      let r0 := String.intercalate "." ((sections.Release.take 3).map partToString)
      let r1 := if sections.Release.length < 3 then r0 ++ ".0" else r0
      let r2 := if sections.Release.length < 2 then r1 ++ ".0" else r1
      if sections.Release.length > 3 then
        r2 ++ "-" ++ String.intercalate "." ((sections.Release.drop 3).map partToString)
      else r2
    else
      if sections.Release.length > 0 then
        "0.0.0" ++ "-" ++ String.intercalate "." (sections.Release.map partToString)
      else "0.0.0"
  let result2 :=
    if sections.Prerelease.length > 0 then
      result ++ "-" ++ String.intercalate "." (sections.Prerelease.map partToString)
    else result
  if sections.BuildMetadata.length > 0 then
    result2 ++ "+" ++ String.intercalate "." (sections.BuildMetadata.map partToString)
  else result2

/-- `getSemver` (grp-plugin-default.js:21-68): reject non-strings and blank
strings, return `semver.valid`'s cleaned result when it is not `null`
(fast path), otherwise synthesize from the parsed sections. -/
def getSemver : JSValue → Except GrpError String
  | .str s =>
    if jsTrim s = "" then .error .emptyVersion
    else
      match semverValid s with
      | some r => .ok r
      | none => .ok (synthesizeSlow s)
  | .num _ => .error .invalidInput
  | .undef => .error .invalidInput

/-- The claim's tokenization rule, stated recursively over the token list:
an empty token that is not the last is emitted as integer `0`, a trailing
empty token is dropped, and a non-empty token is emitted via `emitTok`. -/
def tokenizeSpecRule : List String → List SectionPart
  | [] => []
  | [t] => if t = "" then [] else [emitTok t]
  | t :: rest => (if t = "" then SectionPart.int 0 else emitTok t) :: tokenizeSpecRule rest

/-- The embedding reproduces the expectations of the repository's own test
suite (`test/_suite.js`) for `getSemver`. -/
theorem getSemver_matches_repo_tests :
    getSemver (.str "1.2.3") = .ok "1.2.3" ∧
    getSemver (.str "1.2.3-alpha") = .ok "1.2.3-alpha" ∧
    getSemver (.str "1.2") = .ok "1.2.0" ∧
    getSemver (.str "1") = .ok "1.0.0" ∧
    getSemver (.str "1.2.3.4") = .ok "1.2.3-4" ∧
    getSemver (.str "1.2.3.a.b.c") = .ok "1.2.3-a.b.c" ∧
    getSemver (.str "1.2.3-") = .ok "1.2.3" ∧
    getSemver (.str "arbitrate text") = .ok "0.0.0-arbitrate.text" :=
  ⟨rfl, rfl, rfl, rfl, rfl, rfl, rfl, rfl⟩

/-! ### Utility lemmas: `dropWhile`, membership, trimming -/

theorem mem_dropWhile_self {α : Type} {p : α → Bool} :
    ∀ {l : List α} {x : α}, x ∈ l → p x = false → x ∈ l.dropWhile p := by
  intro l
  induction l with
  | nil => intro x hx _; exact absurd hx (List.not_mem_nil x)
  | cons c t ih =>
    intro x hx hpx
    rw [List.dropWhile_cons]
    by_cases hc : p c = true
    · rw [if_pos hc]
      rcases List.mem_cons.mp hx with h | h
      · subst h; rw [hc] at hpx; exact absurd hpx (by simp)
      · exact ih h hpx
    · rw [if_neg hc]; exact hx

theorem jsTrim_ne_empty (s : String) (c : Char) (hc : c ∈ s.data) (hw : jsWs c = false) :
    jsTrim s ≠ "" := by
  have h1 : c ∈ s.data.dropWhile jsWs := mem_dropWhile_self hc hw
  have h2 : c ∈ (s.data.dropWhile jsWs).reverse := List.mem_reverse.mpr h1
  have h3 : c ∈ (s.data.dropWhile jsWs).reverse.dropWhile jsWs := mem_dropWhile_self h2 hw
  intro he
  have hdata : (((s.data.dropWhile jsWs).reverse.dropWhile jsWs).reverse : List Char) = [] := by
    have := congrArg String.data he
    simpa [jsTrim] using this
  rw [List.reverse_eq_nil_iff] at hdata
  rw [hdata] at h3
  exact absurd h3 (List.not_mem_nil c)

theorem consHead_ne_nil (c : Char) (gs : List (List Char)) : consHead c gs ≠ [] := by
  cases gs <;> simp [consHead]

theorem splitChar_ne_nil (sep : Char) (cs : List Char) : splitChar sep cs ≠ [] := by
  cases cs with
  | nil => simp [splitChar]
  | cons c rest =>
    simp only [splitChar]
    split
    · simp
    · exact consHead_ne_nil c _

theorem splitChar_mem_subset {sep : Char} :
    ∀ {cs g : List Char} {c : Char}, g ∈ splitChar sep cs → c ∈ g → c ∈ cs := by
  intro cs
  induction cs with
  | nil =>
    intro g c hg hc
    simp [splitChar] at hg
    subst hg
    exact absurd hc (List.not_mem_nil c)
  | cons c0 rest ih =>
    intro g c hg hc
    by_cases h0 : c0 = sep
    · rw [splitChar, if_pos h0] at hg
      rcases List.mem_cons.mp hg with h | h
      · subst h; exact absurd hc (List.not_mem_nil c)
      · exact List.mem_cons_of_mem c0 (ih h hc)
    · rw [splitChar, if_neg h0] at hg
      rcases hS : splitChar sep rest with _ | ⟨g0, gs⟩
      · exact absurd hS (splitChar_ne_nil sep rest)
      · rw [hS] at hg
        simp only [consHead] at hg
        rcases List.mem_cons.mp hg with h | h
        · subst h
          rcases List.mem_cons.mp hc with h2 | h2
          · subst h2; exact List.mem_cons_self _ _
          · refine List.mem_cons_of_mem c0 (ih ?_ h2)
            rw [hS]; exact List.mem_cons_self g0 gs
        · exact List.mem_cons_of_mem c0 (ih (by rw [hS]; exact List.mem_cons_of_mem g0 h) hc)

theorem breakFirstL_eq_some {sep : Char} :
    ∀ {cs l r : List Char}, breakFirstL sep cs = some (l, r) → cs = l ++ sep :: r := by
  intro cs
  induction cs with
  | nil => intro l r h; simp [breakFirstL] at h
  | cons c rest ih =>
    intro l r h
    by_cases hc : c = sep
    · simp only [breakFirstL, if_pos hc] at h
      obtain ⟨h1, h2⟩ := Prod.mk.injEq _ _ _ _ ▸ Option.some.injEq _ _ ▸ h
      · subst h1; subst h2; subst hc; rfl
    · simp only [breakFirstL, if_neg hc] at h
      cases hb : breakFirstL sep rest with
      | none => rw [hb] at h; simp at h
      | some p =>
        rw [hb] at h
        cases p with
        | mk l0 r0 =>
          simp only [Option.map_some'] at h
          have h' := Option.some.inj h
          have h1 : c :: l0 = l := congrArg Prod.fst h'
          have h2 : r0 = r := congrArg Prod.snd h'
          subst h1; subst h2
          rw [ih hb]; rfl

theorem stripVL_subset {cs : List Char} {c : Char} (h : c ∈ stripVL cs) : c ∈ cs := by
  cases cs with
  | nil => exact h
  | cons c0 rest =>
    rw [stripVL] at h
    split at h
    · exact List.mem_cons_of_mem c0 h
    · exact h

/-! ### A matched strict-semver string is not blank -/

theorem mainVersionOK_has_digit {cs : List Char} (h : mainVersionOK cs = true) :
    ∃ c, c ∈ cs ∧ isDigitB c = true := by
  rw [mainVersionOK] at h
  simp only [Bool.and_eq_true, List.all_eq_true, beq_iff_eq] at h
  obtain ⟨-, hall⟩ := h
  rcases hsp : splitChar '.' cs with _ | ⟨a, rest⟩
  · exact absurd hsp (splitChar_ne_nil '.' cs)
  · have ha := hall a (by rw [hsp]; exact List.mem_cons_self a rest)
    simp only [Bool.and_eq_true] at ha
    obtain ⟨hnum, -⟩ := ha
    cases a with
    | nil => exact absurd hnum (by simp [isNumericIdentL])
    | cons c0 t =>
      rw [isNumericIdentL] at hnum
      simp only [Bool.and_eq_true] at hnum
      have hmem : (c0 :: t) ∈ splitChar '.' cs := by
        rw [hsp]; exact List.mem_cons_self _ _
      exact ⟨c0, splitChar_mem_subset hmem (List.mem_cons_self c0 t), hnum.1.1⟩

theorem semverCorePre_subset {s : String} {c : Char} (h : c ∈ semverCorePre s) :
    c ∈ (jsTrim s).data := by
  rw [semverCorePre] at h
  rcases hb : breakFirstL '+' (stripVL (jsTrim s).data) with _ | ⟨l, r⟩ <;> rw [hb] at h
  · exact stripVL_subset h
  · exact stripVL_subset (breakFirstL_eq_some hb ▸ List.mem_append_left _ h)

theorem semverCore_subset {s : String} {c : Char} (h : c ∈ semverCore s) :
    c ∈ (jsTrim s).data := by
  rw [semverCore] at h
  rcases hb : breakFirstL '-' (semverCorePre s) with _ | ⟨l, r⟩ <;> rw [hb] at h
  · exact semverCorePre_subset h
  · exact semverCorePre_subset (breakFirstL_eq_some hb ▸ List.mem_append_left _ h)

theorem semverMatch_nonblank (s : String) (h : semverMatch s = true) : jsTrim s ≠ "" := by
  rw [semverMatch] at h
  simp only [Bool.and_eq_true] at h
  obtain ⟨c, hc, -⟩ := mainVersionOK_has_digit h.2
  have hmem : c ∈ (jsTrim s).data := semverCore_subset hc
  intro he
  rw [he] at hmem
  exact absurd hmem (List.not_mem_nil c)

/-! ### Claim C9: the sanitizer -/

theorem sectionChar_iff (c : Char) :
    isSectionChar c = true ↔
      (('0' ≤ c ∧ c ≤ '9') ∨ ('a' ≤ c ∧ c ≤ 'z') ∨ ('A' ≤ c ∧ c ≤ 'Z') ∨ c = '-' ∨ c = '.') := by
  simp only [isSectionChar, isDigitB, isLetterB, Bool.or_eq_true, Bool.and_eq_true,
    decide_eq_true_eq, beq_iff_eq]
  tauto

/-- C9: for every string `s` (including the empty string), `GetSectionString`
replaces exactly the characters outside the set `[0-9 a-z A-Z - .]` with `'.'`,
returns a string of the same length as `s`, and is idempotent. -/
theorem claim_C9 : ∀ s : String,
    (GetSectionString s).length = s.length ∧
    GetSectionString (GetSectionString s) = GetSectionString s ∧
    (GetSectionString s).data = s.data.map (fun c =>
      if ('0' ≤ c ∧ c ≤ '9') ∨ ('a' ≤ c ∧ c ≤ 'z') ∨ ('A' ≤ c ∧ c ≤ 'Z') ∨ c = '-' ∨ c = '.'
      then c else '.') := by
  intro s
  refine ⟨?_, ?_, ?_⟩
  · show (s.data.map _).length = s.data.length
    exact List.length_map _ _
  · show String.mk ((s.data.map _).map _) = String.mk (s.data.map _)
    congr 1
    rw [List.map_map]
    congr 1
    funext c
    by_cases h : isSectionChar c = true
    · simp [Function.comp, h]
    · have hdot : isSectionChar '.' = true := by decide
      simp [Function.comp, h, hdot]
  · show s.data.map _ = s.data.map _
    congr 1
    funext c
    by_cases h : isSectionChar c = true
    · rw [if_pos h, if_pos ((sectionChar_iff c).mp h)]
    · rw [if_neg h, if_neg (fun hp => h ((sectionChar_iff c).mpr hp))]

/-! ### Claim C5: the guard of `getSemver` -/

/-- C5: `getSemver` fails exactly on non-string or blank input, and returns
normally on every other string: a non-string argument yields the
`InvalidInputError` kind, an empty or all-whitespace string yields the
`EmptyVersionError` kind, and every non-blank string yields a result. -/
theorem claim_C5 :
    (∀ x : JSValue, (∀ s : String, x ≠ JSValue.str s) →
        getSemver x = .error GrpError.invalidInput) ∧
    (∀ s : String, jsTrim s = "" → getSemver (JSValue.str s) = .error GrpError.emptyVersion) ∧
    (∀ s : String, jsTrim s ≠ "" → ∃ r : String, getSemver (JSValue.str s) = Except.ok r) := by
  refine ⟨?_, ?_, ?_⟩
  · intro x hx
    cases x with
    | str s => exact absurd rfl (hx s)
    | num n => rfl
    | undef => rfl
  · intro s hs
    simp [getSemver, hs]
  · intro s hs
    simp only [getSemver, if_neg hs]
    cases h : semverValid s with
    | some r => exact ⟨r, rfl⟩
    | none => exact ⟨synthesizeSlow s, rfl⟩

/-- Witness for C5 at concrete inputs: `42`, a whitespace string, `"1.2.3"`. -/
theorem claim_C5_witness :
    getSemver (JSValue.num 42) = .error GrpError.invalidInput ∧
    getSemver (JSValue.str "   ") = .error GrpError.emptyVersion ∧
    ∃ r : String, getSemver (JSValue.str "1.2.3") = Except.ok r :=
  ⟨claim_C5.1 (JSValue.num 42) (fun _ h => JSValue.noConfusion h),
   claim_C5.2.1 "   " (by decide),
   claim_C5.2.2 "1.2.3" (by decide)⟩

/-! ### Claim C8: idempotence of the synthesizer -/

/-- C8 (amended): a second application of `getSemver` returns the same result
as the first whenever the first result `w` is accepted unchanged by the
validator fast path (`semverValid w = some w`); the original unconditional
idempotence claim fails, see the counterexample. -/
theorem claim_C8 : ∀ v w : String,
    getSemver (JSValue.str v) = Except.ok w →
    semverValid w = some w →
    getSemver (JSValue.str w) = getSemver (JSValue.str v) := by
  intro v w h1 h2
  have hm : semverMatch w = true := by
    by_contra hm
    rw [Bool.not_eq_true] at hm
    rw [semverValid, if_neg (by simp [hm])] at h2
    exact Option.noConfusion h2
  have hb : jsTrim w ≠ "" := semverMatch_nonblank w hm
  rw [h1]
  simp only [getSemver, if_neg hb]
  rw [h2]

/-- Counterexample to C8 as stated: `getSemver` is not idempotent, because the
fast path strips build metadata from an output that carries it. -/
theorem claim_C8_counterexample :
    getSemver (JSValue.str "1.2-a+b") = Except.ok "1.2.0-a+b" ∧
    getSemver (JSValue.str "1.2.0-a+b") = Except.ok "1.2.0-a" ∧
    ("1.2.0-a" : String) ≠ "1.2.0-a+b" :=
  ⟨rfl, rfl, by decide⟩

/-- Witness for C8 at `v = "1.2"`, whose first result `"1.2.0"` is fast-path
stable. -/
theorem claim_C8_witness :
    getSemver (JSValue.str "1.2") = Except.ok "1.2.0" ∧
    semverValid "1.2.0" = some "1.2.0" ∧
    getSemver (JSValue.str "1.2.0") = getSemver (JSValue.str "1.2") :=
  ⟨rfl, rfl, claim_C8 "1.2" "1.2.0" rfl rfl⟩

/-! ### Claims C1 and C10: the fast path returns the cleaned form -/

/-- C1 (amended): for every whitespace-fixed `v` matching the validator's
strict three-numeric-release grammar (with no leading `v`), `getSemver`
returns `v` truncated at the first `+`, i.e. `v` with any build-metadata
suffix removed; so identity holds exactly when `v` carries no build
metadata. -/
theorem claim_C1 : ∀ v : String,
    semverMatch v = true →
    jsTrim v = v →
    v.data.head? ≠ some 'v' →
    getSemver (JSValue.str v) =
      Except.ok (String.mk (v.data.takeWhile (fun c => c != '+'))) := by
  intro v hm ht hv
  have hb : jsTrim v ≠ "" := semverMatch_nonblank v hm
  have hstrip : stripVL v.data = v.data := by
    cases hd : v.data with
    | nil => rfl
    | cons c rest =>
      have hc : c ≠ 'v' := by
        rw [hd] at hv
        exact fun h => hv (congrArg some h)
      rw [stripVL, if_neg hc]
  have hval : semverValid v = some (String.mk (v.data.takeWhile (fun c => c != '+'))) := by
    simp only [semverValid]
    rw [if_pos hm, ht, hstrip]
  simp only [getSemver, if_neg hb]
  rw [hval]

/-- Counterexample to C1 as stated: a strict-grammar input with build metadata
is not returned unchanged — the fast path drops the `+build` suffix. -/
theorem claim_C1_counterexample :
    semverMatch "1.2.3-alpha+build" = true ∧
    getSemver (JSValue.str "1.2.3-alpha+build") = Except.ok "1.2.3-alpha" ∧
    ("1.2.3-alpha" : String) ≠ "1.2.3-alpha+build" :=
  ⟨rfl, rfl, by decide⟩

/-- Witness for C1 at `"1.2.3-alpha"` (no build suffix, so identity). -/
theorem claim_C1_witness :
    getSemver (JSValue.str "1.2.3-alpha") = Except.ok "1.2.3-alpha" :=
  claim_C1 "1.2.3-alpha" rfl rfl (by decide)

/-- C10 (amended): for every whitespace-fixed input `"v" ++ X` accepted by the
strict grammar, `getSemver` returns `X` with the leading `v` stripped and any
build-metadata suffix of `X` also removed (the fast path returns the cleaned
form). -/
theorem claim_C10 : ∀ X : String,
    semverMatch ("v" ++ X) = true →
    jsTrim ("v" ++ X) = "v" ++ X →
    getSemver (JSValue.str ("v" ++ X)) =
      Except.ok (String.mk (X.data.takeWhile (fun c => c != '+'))) := by
  intro X hm ht
  have hdata : ("v" ++ X).data = 'v' :: X.data := by
    obtain ⟨l⟩ := X
    rfl
  have hb : jsTrim ("v" ++ X) ≠ "" := semverMatch_nonblank _ hm
  have hval : semverValid ("v" ++ X) =
      some (String.mk (X.data.takeWhile (fun c => c != '+'))) := by
    simp only [semverValid]
    rw [if_pos hm, ht, hdata, stripVL, if_pos rfl]
  simp only [getSemver, if_neg hb]
  rw [hval]

/-- Counterexample to C10 as stated: for `X = "1.2.3+b"` (which matches the
strict grammar), `getSemver ("v" ++ X)` is not `X` — the build suffix is
dropped along with the leading `v`. -/
theorem claim_C10_counterexample :
    semverMatch ("v" ++ "1.2.3+b") = true ∧
    getSemver (JSValue.str ("v" ++ "1.2.3+b")) = Except.ok "1.2.3" ∧
    ("1.2.3" : String) ≠ "1.2.3+b" :=
  ⟨rfl, rfl, by decide⟩

/-- Witness for C10 at `X = "1.2.3"`. -/
theorem claim_C10_witness :
    getSemver (JSValue.str ("v" ++ "1.2.3")) = Except.ok "1.2.3" :=
  claim_C10 "1.2.3" rfl rfl

/-! ### Claims C4 and C7: slow-path rendering -/

theorem dropWhile_of_all_neg {α : Type} {p : α → Bool} :
    ∀ {l : List α}, (∀ x ∈ l, p x = false) → l.dropWhile p = l := by
  intro l h
  cases l with
  | nil => rfl
  | cons c t =>
    rw [List.dropWhile_cons, if_neg (by simp [h c (List.mem_cons_self c t)])]

theorem jsTrim_eq_self (s : String) (h : ∀ c ∈ s.data, jsWs c = false) : jsTrim s = s := by
  simp only [jsTrim]
  rw [dropWhile_of_all_neg h,
    dropWhile_of_all_neg (fun c hc => h c (List.mem_reverse.mp hc)), List.reverse_reverse]

theorem ws_not_sectionChar (c : Char) (hw : jsWs c = true) : isSectionChar c = false := by
  have hmem : c ∈ jsWsChars := List.mem_of_elem_eq_true hw
  have hall : ∀ x ∈ jsWsChars, isSectionChar x = false := by decide
  exact hall c hmem

theorem sectionChar_not_ws (c : Char) (h : isSectionChar c = true) : jsWs c = false := by
  cases hw : jsWs c with
  | false => rfl
  | true => rw [ws_not_sectionChar c hw] at h; exact absurd h (by decide)

/-- Every token produced by splitting a sanitized string is whitespace-free,
hence fixed by `jsTrim`. -/
theorem sanitized_token_trim (s : String) :
    ∀ t ∈ (splitChar '.' (GetSectionString s).data).map String.mk, jsTrim t = t := by
  intro t ht
  obtain ⟨g, hg, rfl⟩ := List.mem_map.mp ht
  apply jsTrim_eq_self
  intro c hc
  have hcs : c ∈ (GetSectionString s).data := splitChar_mem_subset hg hc
  have : c ∈ s.data.map (fun c => if isSectionChar c then c else '.') := hcs
  obtain ⟨c0, -, rfl⟩ := List.mem_map.mp this
  by_cases h0 : isSectionChar c0 = true
  · rw [if_pos h0]; exact sectionChar_not_ws c0 h0
  · rw [if_neg h0]; decide

theorem filterMapIdx_tokenize (N : Nat) :
    ∀ (rem : List String) (k : Nat), k + rem.length = N →
      (∀ t ∈ rem, jsTrim t = t) →
      (List.filterMap (fun it =>
          if jsTrim it.2 = "" then
            if it.1 < N - 1 then some (SectionPart.int 0) else none
          else some (emitTok it.2))
        (List.enumFrom k rem)) = tokenizeSpecRule rem := by
  intro rem
  induction rem with
  | nil => intro k _ _; rfl
  | cons t rest ih =>
    intro k hN htr
    have hlen : k + (rest.length + 1) = N := by
      simpa [List.length_cons, Nat.add_comm, Nat.add_assoc, Nat.add_left_comm] using hN
    have htt : jsTrim t = t := htr t (List.mem_cons_self t rest)
    simp only [List.enumFrom, List.filterMap_cons]
    by_cases hte : t = ""
    · subst hte
      rw [htt]
      rw [if_pos rfl]
      cases rest with
      | nil =>
        rw [if_neg (by simp at hlen; omega)]
        simp [tokenizeSpecRule]
      | cons r rs =>
        rw [if_pos (by simp at hlen; omega)]
        rw [ih (k + 1) (by simp at hlen ⊢; omega)
          (fun t' ht' => htr t' (List.mem_cons_of_mem _ ht'))]
        simp [tokenizeSpecRule]
    · have hne : ¬(jsTrim t = "") := by rw [htt]; exact hte
      rw [if_neg hne]
      cases rest with
      | nil => simp [tokenizeSpecRule, hte]
      | cons r rs =>
        rw [ih (k + 1) (by simp at hlen ⊢; omega)
          (fun t' ht' => htr t' (List.mem_cons_of_mem _ ht'))]
        simp [tokenizeSpecRule, hte]

/-- `ParseSection` agrees with the claim's tokenization rule on every input. -/
theorem ParseSection_eq_rule (s : String) :
    ParseSection s = tokenizeSpecRule ((splitChar '.' (GetSectionString s).data).map String.mk) := by
  simp only [ParseSection, List.enum]
  exact filterMapIdx_tokenize _ _ 0 (by simp) (sanitized_token_trim s)

/-- C6: for every section string, an empty token that is not the last
dot-split result is emitted as integer `0` while a trailing empty token is
dropped; consequently tokenizing `""` gives `[]`, `"a..b"` gives
`[a, 0, b]`, and `"a."` gives `[a]`. -/
theorem claim_C6 :
    (∀ s : String, ParseSection s =
        tokenizeSpecRule ((splitChar '.' (GetSectionString s).data).map String.mk)) ∧
    ParseSection "" = [] ∧
    ParseSection "a..b" = [SectionPart.str "a", SectionPart.int 0, SectionPart.str "b"] ∧
    ParseSection "a." = [SectionPart.str "a"] :=
  ⟨ParseSection_eq_rule, rfl, rfl, rfl⟩

/-! ### Claim C2: the limit-2 split discards later segments -/

theorem strData_append (a b : String) : (a ++ b).data = a.data ++ b.data := by
  obtain ⟨la⟩ := a
  obtain ⟨lb⟩ := b
  rfl

theorem splitChar_append (sep : Char) :
    ∀ (A B : List Char), splitChar sep (A ++ sep :: B) = splitChar sep A ++ splitChar sep B := by
  intro A B
  induction A with
  | nil => simp [splitChar]
  | cons c A' ih =>
    by_cases hc : c = sep
    · subst hc; simp [splitChar, ih]
    · rcases hS : splitChar sep A' with _ | ⟨g, gs⟩
      · exact absurd hS (splitChar_ne_nil sep A')
      · simp [splitChar, hc, ih, hS, consHead]

theorem splitChar_no_sep (sep : Char) :
    ∀ (A : List Char), sep ∉ A → splitChar sep A = [A] := by
  intro A
  induction A with
  | nil => intro _; rfl
  | cons c A' ih =>
    intro h
    have hc : c ≠ sep := fun hcc => h (List.mem_cons.mpr (Or.inl hcc.symm))
    have h' : sep ∉ A' := fun hm => h (List.mem_cons_of_mem c hm)
    simp [splitChar, hc, ih h', consHead]

/-- `ParseVersion` depends on its input only through its limit-2 split on `-`. -/
theorem ParseVersion_congr {v1 v2 : String} (h : jsSplit2 '-' v1 = jsSplit2 '-' v2) :
    ParseVersion v1 = ParseVersion v2 := by
  simp only [ParseVersion, h]

/-- `ParseVersion` results agree when the limit-2 splits agree on the release
segment and on the limit-2 `+`-split of the remainder. -/
theorem ParseVersion_eq_of {v1 v2 r rem1 rem2 : String}
    (h1 : jsSplit2 '-' v1 = [r, rem1]) (h2 : jsSplit2 '-' v2 = [r, rem2])
    (hplus : jsSplit2 '+' rem1 = jsSplit2 '+' rem2) :
    ParseVersion v1 = ParseVersion v2 := by
  simp only [ParseVersion, h1, h2, List.getD_cons_zero, List.getD_cons_succ,
    List.length_cons, List.length_nil, hplus]

/-- C2 (amended): `ParseVersion` splits on **all** occurrences of the delimiter
and keeps only the first two segments, so everything from the second `-` on
(and from the second `+` of the remainder on) is discarded, not kept as literal
text: appending further `-`- or `+`-separated material never changes the
parse. -/
theorem claim_C2 :
    (∀ x y z : String, '-' ∉ x.data → '-' ∉ y.data →
        ParseVersion (x ++ "-" ++ y ++ "-" ++ z) = ParseVersion (x ++ "-" ++ y)) ∧
    (∀ x y z w : String, '-' ∉ x.data → '-' ∉ y.data → '-' ∉ z.data → '-' ∉ w.data →
        '+' ∉ y.data → '+' ∉ z.data →
        ParseVersion (x ++ "-" ++ y ++ "+" ++ z ++ "+" ++ w)
          = ParseVersion (x ++ "-" ++ y ++ "+" ++ z)) := by
  have hdash : ("-" : String).data = ['-'] := rfl
  have hplusd : ("+" : String).data = ['+'] := rfl
  have hne : ('-' : Char) ≠ '+' := by decide
  constructor
  · intro x y z hx hy
    apply ParseVersion_congr
    have hd1 : (x ++ "-" ++ y ++ "-" ++ z).data
        = x.data ++ '-' :: (y.data ++ '-' :: z.data) := by
      simp [strData_append, hdash, List.append_assoc]
    have hd2 : (x ++ "-" ++ y).data = x.data ++ '-' :: y.data := by
      simp [strData_append, hdash]
    rw [jsSplit2, jsSplit2, hd1, hd2]
    rw [splitChar_append, splitChar_append, splitChar_append,
      splitChar_no_sep _ x.data hx, splitChar_no_sep _ y.data hy]
    simp
  · intro x y z w hx hy hz hw hpy hpz
    have hd1 : (x ++ "-" ++ y ++ "+" ++ z ++ "+" ++ w).data
        = x.data ++ '-' :: (y.data ++ '+' :: (z.data ++ '+' :: w.data)) := by
      simp [strData_append, hdash, hplusd, List.append_assoc]
    have hd2 : (x ++ "-" ++ y ++ "+" ++ z).data
        = x.data ++ '-' :: (y.data ++ '+' :: z.data) := by
      simp [strData_append, hdash, hplusd, List.append_assoc]
    have hr1 : ('-' : Char) ∉ (y.data ++ '+' :: (z.data ++ '+' :: w.data)) := by
      intro hm
      rcases List.mem_append.mp hm with h | h
      · exact hy h
      · rcases List.mem_cons.mp h with h | h
        · exact hne h
        · rcases List.mem_append.mp h with h | h
          · exact hz h
          · rcases List.mem_cons.mp h with h | h
            · exact hne h
            · exact hw h
    have hr2 : ('-' : Char) ∉ (y.data ++ '+' :: z.data) := by
      intro hm
      rcases List.mem_append.mp hm with h | h
      · exact hy h
      · rcases List.mem_cons.mp h with h | h
        · exact hne h
        · exact hz h
    have hs1 : jsSplit2 '-' (x ++ "-" ++ y ++ "+" ++ z ++ "+" ++ w)
        = [String.mk x.data, String.mk (y.data ++ '+' :: (z.data ++ '+' :: w.data))] := by
      rw [jsSplit2, hd1, splitChar_append, splitChar_no_sep _ _ hx, splitChar_no_sep _ _ hr1]
      rfl
    have hs2 : jsSplit2 '-' (x ++ "-" ++ y ++ "+" ++ z)
        = [String.mk x.data, String.mk (y.data ++ '+' :: z.data)] := by
      rw [jsSplit2, hd2, splitChar_append, splitChar_no_sep _ _ hx, splitChar_no_sep _ _ hr2]
      rfl
    apply ParseVersion_eq_of hs1 hs2
    show ((splitChar '+' (y.data ++ '+' :: (z.data ++ '+' :: w.data))).map String.mk).take 2
        = ((splitChar '+' (y.data ++ '+' :: z.data)).map String.mk).take 2
    rw [splitChar_append, splitChar_append, splitChar_append,
      splitChar_no_sep _ _ hpy, splitChar_no_sep _ _ hpz]
    simp

/-- Counterexample to C2 as stated: parsing `"1.0-alpha-2"` yields prerelease
`"alpha"` — the `"-2"` tail is discarded by `split('-', 2)`, not kept as a
literal part of the prerelease section. -/
theorem claim_C2_counterexample :
    ParseVersion "1.0-alpha-2"
      = { Release := [SectionPart.int 1, SectionPart.int 0],
          Prerelease := [SectionPart.str "alpha"], BuildMetadata := [] } ∧
    (ParseVersion "1.0-alpha-2").Prerelease ≠ [SectionPart.str "alpha-2"] :=
  ⟨rfl, by decide⟩

/-- Witness for C2 at the claim's own example. -/
theorem claim_C2_witness :
    ParseVersion ("1.0" ++ "-" ++ "alpha" ++ "-" ++ "2") = ParseVersion ("1.0" ++ "-" ++ "alpha") :=
  claim_C2.1 "1.0" "alpha" "2" (by decide) (by decide)
